import Mathlib

/-!
Shallow embedding of `src/pay_period.py` (owldyn/timeoff_calc).

Modelling conventions:
* `datetime.date` is modelled as `ℤ`, a day number; `date + timedelta(days = n)`
  is integer addition and date comparison is integer comparison.
* Python `float` is modelled as `ℚ`; every claim is about which arithmetic
  operations are performed, not about rounding of binary floats.
* `Vacation` carries a ghost field `vid : Nat` modelling Python object
  identity: Python's default `==` on `Vacation` is identity, so
  `list.remove(v)` removes the first occurrence of the very object `v`.
  With `vid` as part of structural equality, `List.erase` matches that
  behaviour exactly (two list positions are equal iff they hold the same
  Python object).
* Exceptions are modelled with `Except`: `PastDateException` and the
  `IndexError` that `self.periods[0]` raises on an empty list.
* The unbounded `while True` loop of `get_final_pto` is modelled with
  explicit fuel; a run that ends by catching `PastDateException` is a
  `LoopOut.done` outcome.
-/

/-- Holder for information about a pay period (`class PayPeriod`). -/
structure PayPeriod where
  pto_accruement : ℚ
  period_length : ℤ
deriving Repr, DecidableEq

/-- `PayPeriod.add_pto`: adds the accruement of PTO for a pay period and
moves the date forward by `period_length` days. -/
def PayPeriod.add_pto (p : PayPeriod) (current_pto : ℚ) (current_date : ℤ) :
    ℚ × ℤ :=
  (current_pto + p.pto_accruement, current_date + p.period_length)

/-- Information about a vacation (`class Vacation`): a start date and a
length in hours. `vid` is the ghost object identity (see the module header). -/
structure Vacation where
  start_date : ℤ
  length : ℚ
  vid : Nat
deriving Repr, DecidableEq

/-- A Python value a `Vacation` may be compared against with `<`:
another `Vacation`, a bare `datetime.date`, or a value of some other type
(identified by the name of that type). -/
inductive PyCmpArg where
  | vac (v : Vacation)
  | date (d : ℤ)
  | otherType (typeName : String)

/-- `Vacation.__lt__`: compares `start_date`s against a `Vacation` or a bare
date, and raises `TypeError` (modelled as `Except.error`, which propagates to
the caller) on any other type. -/
def Vacation.lt (v : Vacation) : PyCmpArg → Except String Bool
  | .vac w => .ok (decide (v.start_date < w.start_date))
  | .date d => .ok (decide (v.start_date < d))
  | .otherType t =>
      .error ("TypeError: < not supported between instances of Vacation and " ++ t)

/-- Configuration record for one accruement segment (`class AccruementPeriod`). -/
structure AccruementPeriod where
  period_length : ℤ
  start_date : ℤ
  end_date : ℤ
  accruement : ℚ
deriving Repr, DecidableEq

/-- State of the engine (`class PTOAccruement`): the remaining configuration
segments (front = active), the running balance and the current date. -/
structure PTOAccruement where
  periods : List AccruementPeriod
  pto : ℚ
  today : ℤ
deriving Repr, DecidableEq

/-- The exceptions `next_period` can raise: `PastDateException`, and the
`IndexError` from `self.periods[0]` when the list is empty. -/
inductive NPError where
  | pastDate
  | emptyPeriods
deriving Repr, DecidableEq

/-- The grace boundary of a segment: `end_date + period_length`, one extra
period-length beyond the nominal end (the buffer on line 107 of the source). -/
def grace (p : AccruementPeriod) : ℤ :=
  p.end_date + p.period_length

/-- Recursive core of `PTOAccruement.next_period`, recursing on the
`periods` list exactly as the Python method recurses after `self.periods.pop(0)`.
Returns the outcome (new pto and new today, or the raised exception) together
with the `periods` list as it stands when the call finishes — pops performed
before an exception are permanent. -/
def nextPeriodAux (pto : ℚ) (today : ℤ) (pto_use : ℚ) :
    List AccruementPeriod → Except NPError (ℚ × ℤ) × List AccruementPeriod
  | [] => (.error .emptyPeriods, [])
  | period :: rest =>
    let pay_period : PayPeriod := ⟨period.accruement, period.period_length⟩
    if today > period.end_date + pay_period.period_length then
      match rest with
      | [] => (.error .pastDate, [period])
      | _ :: _ => nextPeriodAux pto today pto_use rest
    else
      let r := pay_period.add_pto pto today
      ((.ok (r.1 - pto_use, r.2)), period :: rest)

/-- `PTOAccruement.next_period`: calculate the gain/loss for this period,
popping exhausted segments from the front; returns the method's result
(the new pto, or the exception) paired with the state after the call. -/
def PTOAccruement.next_period (s : PTOAccruement) (pto_use : ℚ) :
    Except NPError ℚ × PTOAccruement :=
  match nextPeriodAux s.pto s.today pto_use s.periods with
  | (.ok (newPto, newToday), ps) => (.ok newPto, ⟨ps, newPto, newToday⟩)
  | (.error e, ps) => (.error e, ⟨ps, s.pto, s.today⟩)

/-- The active segment of a list for a given date: the first segment whose
grace boundary `today` has not strictly passed, skipping the expired front
segments exactly as `next_period`'s pop-and-retry does. -/
def activeSegment (today : ℤ) : List AccruementPeriod → Option AccruementPeriod
  | [] => none
  | p :: rest => if today > grace p then activeSegment today rest else some p

/-- The `for date in vacations: ...` loop inside `get_final_pto`, with
Python's for-statement semantics made explicit: the iterator keeps an index
`i` into the (mutated) list; the body of iteration `i` either removes the
current element (`vacations.remove(date)`) after adding its length — after
which the iterator's next access lands one element further along the
shrunken list — or breaks at the first element not strictly before `today`.
Returns the accumulated `used_pto` and the list as left behind. -/
def usedPtoScan (today : ℤ) (i : Nat) (vacs : List Vacation) (acc : ℚ) :
    ℚ × List Vacation :=
  if h : i < vacs.length then
    let v := vacs.get ⟨i, h⟩
    if v.start_date < today then
      usedPtoScan today (i + 1) (vacs.erase v) (acc + v.length)
    else (acc, vacs)
  else (acc, vacs)
termination_by vacs.length - i
decreasing_by
  have hv : vacs.get ⟨i, h⟩ ∈ vacs := List.get_mem vacs i h
  rw [List.length_erase_of_mem hv]
  omega

/-- Total hours of a list of vacations. -/
def vacsSum (l : List Vacation) : ℚ :=
  (l.map Vacation.length).sum

/-- Outcome of the `while True` loop of `get_final_pto`: `done` when the
loop broke by catching `PastDateException`, `failed` when `self.periods[0]`
raised `IndexError` (which `get_final_pto` does not catch), `fuelOut` when
the modelling fuel ran out before either. Each outcome carries the engine
state, the working vacation list and the `intermediate_ptos` accumulated. -/
inductive LoopOut where
  | done (s : PTOAccruement) (vacs : List Vacation) (traj : List ℚ)
  | failed (s : PTOAccruement) (vacs : List Vacation) (traj : List ℚ)
  | fuelOut (s : PTOAccruement) (vacs : List Vacation) (traj : List ℚ)
deriving Repr, DecidableEq

/-- The engine state carried by a loop outcome. -/
def LoopOut.stateOf : LoopOut → PTOAccruement
  | .done s _ _ => s
  | .failed s _ _ => s
  | .fuelOut s _ _ => s

/-- The working vacation list carried by a loop outcome. -/
def LoopOut.vacsOf : LoopOut → List Vacation
  | .done _ vacs _ => vacs
  | .failed _ vacs _ => vacs
  | .fuelOut _ vacs _ => vacs

/-- The `intermediate_ptos` list carried by a loop outcome. -/
def LoopOut.trajOf : LoopOut → List ℚ
  | .done _ _ traj => traj
  | .failed _ _ traj => traj
  | .fuelOut _ _ traj => traj

/-- The `sorted(vacations)` call of `get_final_pto`: Python's stable sort,
ordering by `Vacation.__lt__`, i.e. by `start_date`; it allocates a fresh
list. -/
def sortVacations (l : List Vacation) : List Vacation :=
  l.mergeSort (fun a b => a.start_date ≤ b.start_date)

/-- The `while True` loop body of `get_final_pto`, fueled: each iteration
scans the working vacation list for due vacations (`usedPtoScan`), calls
`next_period` with the accumulated `used_pto`, and either appends the result
to `intermediate_ptos` and continues, or stops on `PastDateException`. -/
def gfpLoop : Nat → PTOAccruement → List Vacation → List ℚ → LoopOut
  | 0, s, vacs, traj => .fuelOut s vacs traj
  | fuel + 1, s, vacs, traj =>
    let scan := usedPtoScan s.today 0 vacs 0
    match s.next_period scan.1 with
    | (.ok pto, s2) => gfpLoop fuel s2 scan.2 (traj ++ [pto])
    | (.error .pastDate, s2) => .done s2 scan.2 traj
    | (.error .emptyPeriods, s2) => .failed s2 scan.2 traj

/-- `PTOAccruement.get_final_pto`: sorts the vacations into a fresh working
list, runs the loop, and returns the final pto together with the trajectory;
`none` when the run did not end by the exhaustion signal within the fuel.
The two `print` calls of the source are progress reporting only. -/
def PTOAccruement.get_final_pto (s : PTOAccruement) (vacations : List Vacation)
    (fuel : Nat) : Option (ℚ × List ℚ) :=
  match gfpLoop fuel s (sortVacations vacations) [] with
  | .done s2 _ traj => some (s2.pto, traj)
  | _ => none

/-- `gfpLoop` instrumented with the ghost list of `next_period` calls: for
each call, the `pto_used` argument passed and the result obtained. The
computation is unchanged (`gfpLoopCalls_fst`). -/
def gfpLoopCalls : Nat → PTOAccruement → List Vacation → List ℚ →
    List (ℚ × Except NPError ℚ) → LoopOut × List (ℚ × Except NPError ℚ)
  | 0, s, vacs, traj, calls => (.fuelOut s vacs traj, calls)
  | fuel + 1, s, vacs, traj, calls =>
    let scan := usedPtoScan s.today 0 vacs 0
    match s.next_period scan.1 with
    | (.ok pto, s2) =>
        gfpLoopCalls fuel s2 scan.2 (traj ++ [pto]) (calls ++ [(scan.1, .ok pto)])
    | (.error .pastDate, s2) =>
        (.done s2 scan.2 traj, calls ++ [(scan.1, .error .pastDate)])
    | (.error .emptyPeriods, s2) =>
        (.failed s2 scan.2 traj, calls ++ [(scan.1, .error .emptyPeriods)])

/-- Heap model for the caller-visible aliasing of `get_final_pto`: the heap
maps references (indices) to list objects, and `vacRef` is the reference the
caller passed as the `vacations` argument. `vacations = sorted(vacations)`
rebinds the local name to a freshly allocated list object, and every
`vacations.remove(...)` of the loop mutates that fresh object only (the
local name is never rebound afterwards), so the model stores the working
list left behind by the loop at the fresh reference and writes no other. -/
def get_final_pto_heap (fuel : Nat) (s : PTOAccruement)
    (heap : List (List Vacation)) (vacRef : Nat) :
    LoopOut × List (List Vacation) :=
  let callerList := heap.getD vacRef []
  let localList := sortVacations callerList
  let newRef := heap.length
  let heap1 := heap ++ [localList]
  let out := gfpLoop fuel s localList []
  (out, heap1.set newRef out.vacsOf)

/- ------------------------------------------------------------------ -/
/- Basic lemmas about `nextPeriodAux` / `next_period`.                  -/
/- ------------------------------------------------------------------ -/

theorem nextPeriodAux_cons_expired (pto : ℚ) (today : ℤ) (pto_use : ℚ)
    (p q : AccruementPeriod) (rest : List AccruementPeriod)
    (h : today > grace p) :
    nextPeriodAux pto today pto_use (p :: q :: rest)
      = nextPeriodAux pto today pto_use (q :: rest) := by
  simp [nextPeriodAux, PayPeriod.add_pto, grace] at h ⊢
  intro h'
  exact absurd h (by omega)

theorem nextPeriodAux_cons_active (pto : ℚ) (today : ℤ) (pto_use : ℚ)
    (p : AccruementPeriod) (rest : List AccruementPeriod)
    (h : ¬ today > grace p) :
    nextPeriodAux pto today pto_use (p :: rest)
      = (.ok (pto + p.accruement - pto_use, today + p.period_length), p :: rest) := by
  simp [grace] at h
  simp [nextPeriodAux, PayPeriod.add_pto, h]

theorem nextPeriodAux_last_expired (pto : ℚ) (today : ℤ) (pto_use : ℚ)
    (p : AccruementPeriod) (h : today > grace p) :
    nextPeriodAux pto today pto_use [p] = (.error .pastDate, [p]) := by
  simp [grace] at h
  simp [nextPeriodAux, PayPeriod.add_pto, h]

/-- `next_period` raises `PastDateException` exactly when every remaining
segment's grace boundary lies strictly before `today` (given at least one
segment remains). -/
theorem nextPeriodAux_pastDate_iff (pto : ℚ) (today : ℤ) (pto_use : ℚ)
    (ps : List AccruementPeriod) (hne : ps ≠ []) :
    (nextPeriodAux pto today pto_use ps).1 = .error .pastDate
      ↔ ∀ p ∈ ps, grace p < today := by
  induction ps with
  | nil => exact absurd rfl hne
  | cons p rest ih =>
    by_cases hp : today > grace p
    · match rest with
      | [] =>
        rw [nextPeriodAux_last_expired pto today pto_use p hp]
        simp [hp]
      | q :: rest' =>
        rw [nextPeriodAux_cons_expired pto today pto_use p q rest' hp]
        rw [ih (by simp)]
        simp [hp]
    · rw [nextPeriodAux_cons_active pto today pto_use p rest hp]
      simp only [List.mem_cons]
      constructor
      · intro h; cases h
      · intro h
        exact absurd (h p (Or.inl rfl)) (by simpa using hp)

theorem nextPeriodAux_ok_of_active (pto : ℚ) (today : ℤ) (pto_use : ℚ)
    (ps : List AccruementPeriod) (p : AccruementPeriod)
    (h : activeSegment today ps = some p) :
    nextPeriodAux pto today pto_use ps
      = (.ok (pto + p.accruement - pto_use, today + p.period_length),
          ps.dropWhile (fun q => decide (grace q < today))) := by
  induction ps with
  | nil => simp [activeSegment] at h
  | cons q rest ih =>
    by_cases hq : today > grace q
    · have h' : activeSegment today rest = some p := by
        simpa [activeSegment, hq] using h
      match rest with
      | [] => simp [activeSegment] at h'
      | r :: rest' =>
        rw [nextPeriodAux_cons_expired pto today pto_use q r rest' hq]
        rw [ih h']
        have : grace q < today := hq
        simp [List.dropWhile, this]
    · have hqp : q = p := by simpa [activeSegment, hq] using h
      subst hqp
      rw [nextPeriodAux_cons_active pto today pto_use q rest hq]
      have : ¬ grace q < today := by simpa using hq
      simp [List.dropWhile, this]

theorem nextPeriodAux_periods_suffix (pto : ℚ) (today : ℤ) (pto_use : ℚ)
    (ps : List AccruementPeriod) :
    (nextPeriodAux pto today pto_use ps).2.IsSuffix ps := by
  induction ps with
  | nil => simp [nextPeriodAux]
  | cons p rest ih =>
    by_cases hp : today > grace p
    · match rest with
      | [] =>
        rw [nextPeriodAux_last_expired pto today pto_use p hp]
      | q :: rest' =>
        rw [nextPeriodAux_cons_expired pto today pto_use p q rest' hp]
        exact ih.trans (List.suffix_cons p (q :: rest'))
    · rw [nextPeriodAux_cons_active pto today pto_use p rest hp]

/- ------------------------------------------------------------------ -/
/- Claims C6 and C7.                                                   -/
/- ------------------------------------------------------------------ -/

/-- C6: for every PayPeriod and every input pair, `add_pto` returns exactly
`(current_pto + accrual_rate, current_date + period_length)`. The embedding
is a pure function, so determinism and absence of mutation and of error
conditions are inherent in its type. -/
theorem add_pto_exact (p : PayPeriod) (current_pto : ℚ) (current_date : ℤ) :
    p.add_pto current_pto current_date
      = (current_pto + p.pto_accruement, current_date + p.period_length) := rfl

/-- C7: comparing a Vacation via `<` against another Vacation or a bare date
returns the comparison of the start dates; comparing against any other type
raises a `TypeError` that propagates to the caller (`Except.error`). -/
theorem vacation_lt_spec (v w : Vacation) (d : ℤ) (t : String) :
    Vacation.lt v (.vac w) = .ok (decide (v.start_date < w.start_date))
    ∧ Vacation.lt v (.date d) = .ok (decide (v.start_date < d))
    ∧ ∃ msg, Vacation.lt v (.otherType t) = .error msg :=
  ⟨rfl, rfl, _, rfl⟩

/- ------------------------------------------------------------------ -/
/- Claims C2, C3, C8, C9: next_period.                                 -/
/- ------------------------------------------------------------------ -/

theorem next_period_pastDate_iff (s : PTOAccruement) (u : ℚ)
    (hne : s.periods ≠ []) :
    (s.next_period u).1 = .error .pastDate ↔ ∀ p ∈ s.periods, grace p < s.today := by
  rw [← nextPeriodAux_pastDate_iff s.pto s.today u s.periods hne]
  unfold PTOAccruement.next_period
  rcases h : nextPeriodAux s.pto s.today u s.periods with ⟨r, ps⟩
  rcases r with e | ⟨q, t⟩ <;> simp

theorem next_period_active_eq (s : PTOAccruement) (u : ℚ)
    (p : AccruementPeriod) (h : activeSegment s.today s.periods = some p) :
    s.next_period u
      = (.ok (s.pto + p.accruement - u),
         ⟨s.periods.dropWhile (fun q => decide (grace q < s.today)),
          s.pto + p.accruement - u, s.today + p.period_length⟩) := by
  unfold PTOAccruement.next_period
  rw [nextPeriodAux_ok_of_active s.pto s.today u s.periods p h]

/-- C3: whenever the active segment (front after discarding expired segments,
which is exactly the first segment whose grace boundary `today` has not
strictly passed) exists, `next_period pto_use` returns
`pto + accruement - pto_use`, stores that value in `pto`, and advances
`today` by exactly that segment's `period_length`. -/
theorem next_period_active_step (s : PTOAccruement) (u : ℚ)
    (p : AccruementPeriod) (h : activeSegment s.today s.periods = some p) :
    s.next_period u
      = (.ok (s.pto + p.accruement - u),
         ⟨s.periods.dropWhile (fun q => decide (grace q < s.today)),
          s.pto + p.accruement - u, s.today + p.period_length⟩) :=
  next_period_active_eq s u p h

/-- Witness for C3 at a concrete state: one segment, not yet expired. -/
theorem next_period_active_step_witness :
    activeSegment 10 [⟨14, 0, 100, 5⟩] = some ⟨14, 0, 100, 5⟩
    ∧ (PTOAccruement.mk [⟨14, 0, 100, 5⟩] 2 10).next_period 1
        = (.ok (2 + 5 - 1),
           ⟨[AccruementPeriod.mk 14 0 100 5].dropWhile
              (fun q => decide (grace q < 10)), 2 + 5 - 1, 10 + 14⟩) :=
  ⟨rfl, next_period_active_step ⟨[⟨14, 0, 100, 5⟩], 2, 10⟩ 1 ⟨14, 0, 100, 5⟩ rfl⟩

/-- C2 counterexample: with segments not in chronological order, `today` can
be strictly past the grace boundary of the last remaining segment while
`next_period` still succeeds on the front segment, so exhaustion is not
equivalent to expiry of the last segment alone. -/
theorem next_period_last_segment_not_iff :
    grace ⟨1, 0, 5, 1⟩ < (10 : ℤ)
    ∧ ((PTOAccruement.mk [⟨14, 0, 100, 5⟩, ⟨1, 0, 5, 1⟩] 0 10).next_period 0).1
        = .ok 5 := by
  constructor
  · decide
  · simp [PTOAccruement.next_period, nextPeriodAux, PayPeriod.add_pto]

/-- C2 amended: `next_period` signals schedule-exhausted if and only if
`today` is strictly past the grace boundary `end_date + period_length` of
EVERY remaining segment (for chronologically ordered segments this is
equivalent to expiry of the last one); and when the front segment is expired
but more than one segment remains, the front segment is permanently removed
and the operation retried against the remaining segments. -/
theorem next_period_exhaustion_spec (s : PTOAccruement) (u : ℚ)
    (hne : s.periods ≠ []) :
    ((s.next_period u).1 = .error .pastDate ↔ ∀ p ∈ s.periods, grace p < s.today)
    ∧ (∀ p rest, s.periods = p :: rest → rest ≠ [] → grace p < s.today →
        s.next_period u = PTOAccruement.next_period ⟨rest, s.pto, s.today⟩ u) := by
  refine ⟨next_period_pastDate_iff s u hne, ?_⟩
  intro p rest hps hrest hgr
  cases rest with
  | nil => exact absurd rfl hrest
  | cons r rest' =>
    unfold PTOAccruement.next_period
    simp only [hps]
    rw [nextPeriodAux_cons_expired s.pto s.today u p r rest' (by simpa [grace] using hgr)]

/-- Witness for C2 at a concrete state where exhaustion does occur. -/
theorem next_period_exhaustion_spec_witness :
    ([⟨1, 0, 5, 1⟩, ⟨1, 0, 3, 1⟩] : List AccruementPeriod) ≠ []
    ∧ (((PTOAccruement.mk [⟨1, 0, 5, 1⟩, ⟨1, 0, 3, 1⟩] 0 10).next_period 0).1
          = .error .pastDate
        ↔ ∀ p ∈ ([⟨1, 0, 5, 1⟩, ⟨1, 0, 3, 1⟩] : List AccruementPeriod),
            grace p < 10) :=
  ⟨by decide,
   (next_period_exhaustion_spec ⟨[⟨1, 0, 5, 1⟩, ⟨1, 0, 3, 1⟩], 0, 10⟩ 0 (by decide)).1⟩

theorem activeSegment_mem (today : ℤ) (ps : List AccruementPeriod)
    (p : AccruementPeriod) (h : activeSegment today ps = some p) : p ∈ ps := by
  induction ps with
  | nil => simp [activeSegment] at h
  | cons q rest ih =>
    by_cases hq : today > grace q
    · have h' : activeSegment today rest = some p := by
        simpa [activeSegment, hq] using h
      exact List.mem_cons_of_mem q (ih h')
    · have : q = p := by simpa [activeSegment, hq] using h
      subst this
      exact List.mem_cons_self q rest

theorem nextPeriodAux_error_of_none (pto : ℚ) (today : ℤ) (u : ℚ)
    (ps : List AccruementPeriod) (h : activeSegment today ps = none) :
    ∃ e ps', nextPeriodAux pto today u ps = (.error e, ps') := by
  induction ps with
  | nil => exact ⟨.emptyPeriods, [], rfl⟩
  | cons p rest ih =>
    by_cases hp : today > grace p
    · have h' : activeSegment today rest = none := by
        simpa [activeSegment, hp] using h
      cases rest with
      | nil => exact ⟨.pastDate, [p], nextPeriodAux_last_expired pto today u p hp⟩
      | cons r rest' =>
        rw [nextPeriodAux_cons_expired pto today u p r rest' hp]
        exact ih h'
    · simp [activeSegment, hp] at h

/-- Case analysis for `next_period`: either an active segment exists and the
call performs that segment's accrual step, or no segment is usable and the
call raises, leaving `pto` and `today` unchanged. -/
theorem next_period_cases (s : PTOAccruement) (u : ℚ) :
    (∃ p, activeSegment s.today s.periods = some p
       ∧ s.next_period u = (.ok (s.pto + p.accruement - u),
            ⟨s.periods.dropWhile (fun q => decide (grace q < s.today)),
             s.pto + p.accruement - u, s.today + p.period_length⟩))
    ∨ (activeSegment s.today s.periods = none
       ∧ (∃ e, (s.next_period u).1 = .error e)
       ∧ (s.next_period u).2.pto = s.pto ∧ (s.next_period u).2.today = s.today) := by
  rcases h : activeSegment s.today s.periods with _ | p
  · right
    obtain ⟨e, ps', haux⟩ := nextPeriodAux_error_of_none s.pto s.today u s.periods h
    refine ⟨rfl, ?_⟩
    unfold PTOAccruement.next_period
    rw [haux]
    exact ⟨⟨e, rfl⟩, rfl, rfl⟩
  · exact Or.inl ⟨p, rfl, next_period_active_eq s u p h⟩

/-- C8 counterexample: with a (degenerate) segment whose `period_length` is
negative, a successful `next_period` call moves `today` backwards, so `today`
does not unconditionally "never decrease". -/
theorem next_period_today_can_decrease :
    (((PTOAccruement.mk [⟨-3, 0, 100, 5⟩] 0 10).next_period 0).2).today < 10 := by
  decide

/-- C8 amended: every change `next_period` makes to `today` is by exactly the
active segment's `period_length` (an increase whenever period lengths are
nonnegative, which the code does not enforce); a call that signals an error
leaves `today` unchanged; and under nonnegative period lengths `today` never
decreases. -/
theorem next_period_today_evolution (s : PTOAccruement) (u : ℚ) :
    (∀ e s2, s.next_period u = (.error e, s2) → s2.today = s.today)
    ∧ (∀ q s2, s.next_period u = (.ok q, s2) →
        ∃ p, activeSegment s.today s.periods = some p
          ∧ s2.today = s.today + p.period_length)
    ∧ ((∀ p ∈ s.periods, 0 ≤ p.period_length) →
        ∀ r s2, s.next_period u = (r, s2) → s.today ≤ s2.today) := by
  rcases next_period_cases s u with ⟨p, hp, heq⟩ | ⟨hn, ⟨e, he⟩, hpto, htoday⟩
  · refine ⟨?_, ?_, ?_⟩
    · intro e s2 h
      rw [heq] at h
      cases h
    · intro q s2 h
      rw [heq] at h
      cases h
      exact ⟨p, hp, rfl⟩
    · intro hnn r s2 h
      rw [heq] at h
      cases h
      have := hnn p (activeSegment_mem s.today s.periods p hp)
      simp only [PTOAccruement.today]
      omega
  · refine ⟨?_, ?_, ?_⟩
    · intro e2 s2 h
      rw [h] at htoday
      exact htoday
    · intro q s2 h
      rw [h] at he
      cases he
    · intro hnn r s2 h
      rw [h] at htoday
      exact le_of_eq htoday.symm

/- ------------------------------------------------------------------ -/
/- The vacation scan of get_final_pto (C1, C4).                        -/
/- ------------------------------------------------------------------ -/

theorem usedPtoScan_due (today : ℤ) (i : Nat) (vacs : List Vacation) (acc : ℚ)
    (h : i < vacs.length) (hdue : (vacs.get ⟨i, h⟩).start_date < today) :
    usedPtoScan today i vacs acc
      = usedPtoScan today (i + 1) (vacs.erase (vacs.get ⟨i, h⟩))
          (acc + (vacs.get ⟨i, h⟩).length) := by
  rw [usedPtoScan.eq_def]
  simp only [dif_pos h, if_pos hdue]

theorem usedPtoScan_stop (today : ℤ) (i : Nat) (vacs : List Vacation) (acc : ℚ)
    (h : i < vacs.length) (hnd : ¬ (vacs.get ⟨i, h⟩).start_date < today) :
    usedPtoScan today i vacs acc = (acc, vacs) := by
  rw [usedPtoScan.eq_def]
  simp only [dif_pos h, if_neg hnd]

theorem usedPtoScan_end (today : ℤ) (i : Nat) (vacs : List Vacation) (acc : ℚ)
    (h : ¬ i < vacs.length) :
    usedPtoScan today i vacs acc = (acc, vacs) := by
  rw [usedPtoScan.eq_def]
  simp only [dif_neg h]

theorem vacsSum_erase (v : Vacation) (l : List Vacation) (hv : v ∈ l) :
    vacsSum (l.erase v) = vacsSum l - v.length := by
  have hperm : l.Perm (v :: l.erase v) := List.perm_cons_erase hv
  have : vacsSum l = vacsSum (v :: l.erase v) :=
    List.Perm.sum_eq (List.Perm.map Vacation.length hperm)
  simp only [vacsSum, List.map_cons, List.sum_cons] at this ⊢
  rw [this]
  ring

/-- The scan leaves behind a sublist of the input and accumulates exactly the
total length of the elements it removed. -/
theorem usedPtoScan_spec (today : ℤ) (i : Nat) (vacs : List Vacation) (acc : ℚ) :
    (usedPtoScan today i vacs acc).2.Sublist vacs
    ∧ (usedPtoScan today i vacs acc).1
        = acc + (vacsSum vacs - vacsSum (usedPtoScan today i vacs acc).2) := by
  induction i, vacs, acc using usedPtoScan.induct today with
  | case1 i vacs acc h v hdue ih =>
    have hv : v = vacs.get ⟨i, h⟩ := rfl
    rw [hv] at hdue ih
    rw [usedPtoScan_due today i vacs acc h hdue]
    refine ⟨ih.1.trans (List.erase_sublist _ _), ?_⟩
    rw [ih.2, vacsSum_erase _ vacs (List.get_mem vacs i h)]
    ring
  | case2 i vacs acc h v hnd =>
    have hv : v = vacs.get ⟨i, h⟩ := rfl
    rw [hv] at hnd
    rw [usedPtoScan_stop today i vacs acc h hnd]
    exact ⟨List.Sublist.refl vacs, by ring⟩
  | case3 i vacs acc h =>
    rw [usedPtoScan_end today i vacs acc h]
    exact ⟨List.Sublist.refl vacs, by ring⟩

/-- C1 (the failing input): with two vacations both strictly before `today`
in the working set, a single scan consumes only the first — removing it mid-
iteration shifts the list, so the iterator skips the second, which stays in
the working set although it is due — and `used_pto` is 1, not 1 + 2. -/
theorem scan_skips_consecutive_due :
    usedPtoScan 10 0 [⟨1, 1, 0⟩, ⟨2, 2, 1⟩] 0 = (1, [⟨2, 2, 1⟩])
    ∧ Vacation.start_date ⟨2, 2, 1⟩ < 10
    ∧ (usedPtoScan 10 0 [⟨1, 1, 0⟩, ⟨2, 2, 1⟩] 0).1 ≠ 1 + 2 := by
  have heval : usedPtoScan 10 0 [⟨1, 1, 0⟩, ⟨2, 2, 1⟩] 0 = (1, [⟨2, 2, 1⟩]) := by
    rw [usedPtoScan_due 10 0 [⟨1, 1, 0⟩, ⟨2, 2, 1⟩] 0 (by decide) (by decide)]
    rw [show ([⟨1, 1, 0⟩, ⟨2, 2, 1⟩] : List Vacation).erase
          (List.get _ ⟨0, by decide⟩) = [⟨2, 2, 1⟩] by decide]
    norm_num [List.get]
    rw [usedPtoScan_end 10 1 [⟨2, 2, 1⟩] 1 (by decide)]
  refine ⟨heval, by decide, ?_⟩
  rw [heval]
  norm_num

/- ------------------------------------------------------------------ -/
/- The while-True loop of get_final_pto (C4, C5, C9, C10).             -/
/- ------------------------------------------------------------------ -/

theorem gfpLoopCalls_fst (fuel : Nat) (s : PTOAccruement) (vacs : List Vacation)
    (traj : List ℚ) (calls : List (ℚ × Except NPError ℚ)) :
    (gfpLoopCalls fuel s vacs traj calls).1 = gfpLoop fuel s vacs traj := by
  induction fuel generalizing s vacs traj calls with
  | zero => rfl
  | succ fuel ih =>
    rw [gfpLoopCalls, gfpLoop]
    rcases h : s.next_period (usedPtoScan s.today 0 vacs 0).1 with ⟨r, s2⟩
    rcases r with e | pto
    · cases e <;> simp [h]
    · simp [h, ih]

theorem next_period_error_state (s : PTOAccruement) (u : ℚ) (e : NPError)
    (s2 : PTOAccruement) (h : s.next_period u = (.error e, s2)) :
    s2.pto = s.pto ∧ s2.today = s.today ∧ s2.periods.IsSuffix s.periods := by
  have hsuf := nextPeriodAux_periods_suffix s.pto s.today u s.periods
  unfold PTOAccruement.next_period at h
  rcases haux : nextPeriodAux s.pto s.today u s.periods with ⟨r, ps⟩
  rw [haux] at h hsuf
  rcases r with e2 | ⟨q, t⟩
  · simp only [Prod.mk.injEq, Except.error.injEq] at h
    obtain ⟨-, hs⟩ := h
    subst hs
    exact ⟨rfl, rfl, hsuf⟩
  · simp at h

theorem next_period_ok_state (s : PTOAccruement) (u q : ℚ) (s2 : PTOAccruement)
    (h : s.next_period u = (.ok q, s2)) : s2.pto = q := by
  unfold PTOAccruement.next_period at h
  rcases haux : nextPeriodAux s.pto s.today u s.periods with ⟨r, ps⟩
  rw [haux] at h
  rcases r with e2 | ⟨q2, t⟩
  · simp at h
  · simp only [Prod.mk.injEq, Except.ok.injEq] at h
    obtain ⟨hq, hs⟩ := h
    subst hs
    exact hq

/-- C9: when `next_period` terminates with `PastDateException`, `pto` and
`today` hold exactly the values they had before the call, while the
`periods` list is a suffix of what it was (segments discarded before the
signal stay discarded). -/
theorem next_period_exhaustion_frame (s : PTOAccruement) (u : ℚ)
    (s2 : PTOAccruement) (h : s.next_period u = (.error .pastDate, s2)) :
    s2.pto = s.pto ∧ s2.today = s.today ∧ s2.periods.IsSuffix s.periods :=
  next_period_error_state s u .pastDate s2 h

/-- Witness for C9 at a concrete exhausted state. -/
theorem next_period_exhaustion_frame_witness :
    (⟨[⟨1, 0, 5, 1⟩], 3, 10⟩ : PTOAccruement).next_period 0
        = (.error .pastDate, ⟨[⟨1, 0, 5, 1⟩], 3, 10⟩)
    ∧ ((3 : ℚ) = 3 ∧ (10 : ℤ) = 10
        ∧ List.IsSuffix [⟨1, 0, 5, 1⟩] [(⟨1, 0, 5, 1⟩ : AccruementPeriod)]) := by
  have h : (⟨[⟨1, 0, 5, 1⟩], 3, 10⟩ : PTOAccruement).next_period 0
      = (.error .pastDate, ⟨[⟨1, 0, 5, 1⟩], 3, 10⟩) := by
    norm_num [PTOAccruement.next_period, nextPeriodAux]
  exact ⟨h, next_period_exhaustion_frame _ 0 _ h⟩

/-- Run-level invariant of the instrumented loop: the ghost call list grows
by some `newCalls`; the working vacation list only loses elements; the total
`pto_used` handed to `next_period` over the run equals the total length of
the removed vacations; the trajectory extends by exactly the ok results of
the new calls, in order; the final `pto` is the last ok result (or the
starting `pto` when there is none); and a `done` run ends in exactly one
failed call, preceded only by successful ones. -/
theorem gfpLoopCalls_run (fuel : Nat) (s : PTOAccruement) (vacs : List Vacation)
    (traj : List ℚ) (calls : List (ℚ × Except NPError ℚ)) :
    ∃ newCalls,
      (gfpLoopCalls fuel s vacs traj calls).2 = calls ++ newCalls
      ∧ (gfpLoopCalls fuel s vacs traj calls).1.vacsOf.Sublist vacs
      ∧ ((newCalls.map Prod.fst).sum
          = vacsSum vacs - vacsSum (gfpLoopCalls fuel s vacs traj calls).1.vacsOf)
      ∧ (gfpLoopCalls fuel s vacs traj calls).1.trajOf
          = traj ++ newCalls.filterMap (fun c => c.2.toOption)
      ∧ (gfpLoopCalls fuel s vacs traj calls).1.stateOf.pto
          = (newCalls.filterMap (fun c => c.2.toOption)).getLastD s.pto
      ∧ (∀ s2 vacs2 traj2,
          (gfpLoopCalls fuel s vacs traj calls).1 = .done s2 vacs2 traj2 →
          (∃ u, newCalls.getLast? = some (u, .error .pastDate))
          ∧ ∀ c ∈ newCalls.dropLast, ∃ u q, c = (u, .ok q)) := by
  induction fuel generalizing s vacs traj calls with
  | zero =>
    refine ⟨[], by simp [gfpLoopCalls], ?_, ?_, ?_, ?_, ?_⟩
    · simp [gfpLoopCalls, LoopOut.vacsOf]
    · simp [gfpLoopCalls, LoopOut.vacsOf]
    · simp [gfpLoopCalls, LoopOut.trajOf]
    · simp [gfpLoopCalls, LoopOut.stateOf]
    · intro s2 vacs2 traj2 hdone
      simp [gfpLoopCalls] at hdone
  | succ fuel ih =>
    obtain ⟨hssub, hssum⟩ := usedPtoScan_spec s.today 0 vacs 0
    rcases hnp : s.next_period (usedPtoScan s.today 0 vacs 0).1 with ⟨r, s2⟩
    rcases r with e | pto
    · have hfr := next_period_error_state s _ e s2 hnp
      rcases e with _ | _
      · have hres : gfpLoopCalls (fuel + 1) s vacs traj calls
            = (.done s2 (usedPtoScan s.today 0 vacs 0).2 traj,
               calls ++ [((usedPtoScan s.today 0 vacs 0).1, .error .pastDate)]) := by
          simp only [gfpLoopCalls]
          rw [hnp]
        refine ⟨[((usedPtoScan s.today 0 vacs 0).1, .error .pastDate)],
          by rw [hres], ?_, ?_, ?_, ?_, ?_⟩
        · rw [hres]
          exact hssub
        · rw [hres]
          simp only [LoopOut.vacsOf, List.map_cons, List.map_nil, List.sum_cons,
            List.sum_nil]
          rw [hssum]
          ring
        · rw [hres]
          simp [LoopOut.trajOf, Except.toOption]
        · rw [hres]
          simp only [LoopOut.stateOf, List.filterMap_cons, Except.toOption,
            List.filterMap_nil, List.getLastD_nil]
          exact hfr.1
        · intro s3 vacs3 traj3 _
          refine ⟨⟨(usedPtoScan s.today 0 vacs 0).1, rfl⟩, ?_⟩
          intro c hc
          simp at hc
      · have hres : gfpLoopCalls (fuel + 1) s vacs traj calls
            = (.failed s2 (usedPtoScan s.today 0 vacs 0).2 traj,
               calls ++ [((usedPtoScan s.today 0 vacs 0).1, .error .emptyPeriods)]) := by
          simp only [gfpLoopCalls]
          rw [hnp]
        refine ⟨[((usedPtoScan s.today 0 vacs 0).1, .error .emptyPeriods)],
          by rw [hres], ?_, ?_, ?_, ?_, ?_⟩
        · rw [hres]
          exact hssub
        · rw [hres]
          simp only [LoopOut.vacsOf, List.map_cons, List.map_nil, List.sum_cons,
            List.sum_nil]
          rw [hssum]
          ring
        · rw [hres]
          simp [LoopOut.trajOf, Except.toOption]
        · rw [hres]
          simp only [LoopOut.stateOf, List.filterMap_cons, Except.toOption,
            List.filterMap_nil, List.getLastD_nil]
          exact hfr.1
        · intro s3 vacs3 traj3 hdone
          rw [hres] at hdone
          simp at hdone
    · have hres : gfpLoopCalls (fuel + 1) s vacs traj calls
          = gfpLoopCalls fuel s2 (usedPtoScan s.today 0 vacs 0).2 (traj ++ [pto])
              (calls ++ [((usedPtoScan s.today 0 vacs 0).1, .ok pto)]) := by
        simp only [gfpLoopCalls]
        rw [hnp]
      have hpto : s2.pto = pto := next_period_ok_state s _ pto s2 hnp
      obtain ⟨nc, h1, h2, h3, h4, h5, h6⟩ :=
        ih s2 (usedPtoScan s.today 0 vacs 0).2 (traj ++ [pto])
          (calls ++ [((usedPtoScan s.today 0 vacs 0).1, .ok pto)])
      refine ⟨((usedPtoScan s.today 0 vacs 0).1, .ok pto) :: nc, ?_, ?_, ?_, ?_, ?_, ?_⟩
      · rw [hres, h1]
        simp
      · rw [hres]
        exact h2.trans hssub
      · rw [hres]
        simp only [List.map_cons, List.sum_cons]
        rw [h3, hssum]
        ring
      · rw [hres, h4]
        simp [Except.toOption]
      · rw [hres, h5, hpto]
        simp only [List.filterMap_cons, Except.toOption, List.getLastD_cons]
      · intro s3 vacs3 traj3 hdone
        rw [hres] at hdone
        obtain ⟨⟨u, hlast⟩, hinit⟩ := h6 s3 vacs3 traj3 hdone
        rcases nc with _ | ⟨c0, nc'⟩
        · simp at hlast
        · refine ⟨⟨u, ?_⟩, ?_⟩
          · rw [List.getLast?_cons_cons]
            exact hlast
          · intro c hc
            rw [List.dropLast_cons₂] at hc
            rcases List.mem_cons.mp hc with hceq | hcmem
            · exact ⟨(usedPtoScan s.today 0 vacs 0).1, pto, hceq⟩
            · exact hinit c hcmem

/-- C4: `get_final_pto` never deducts the same vacation twice. Across any
whole run of its loop, the working set only ever loses elements (it ends as
a sublist of the initial working set), and the total `pto_used` passed to
all `next_period` calls equals the total length of exactly the removed
vacations — every removed occurrence counted once, none twice. -/
theorem no_double_deduction (fuel : Nat) (s : PTOAccruement)
    (vacs : List Vacation) :
    ((gfpLoopCalls fuel s vacs [] []).1).vacsOf.Sublist vacs
    ∧ (((gfpLoopCalls fuel s vacs [] []).2).map Prod.fst).sum
        = vacsSum vacs - vacsSum ((gfpLoopCalls fuel s vacs [] []).1).vacsOf := by
  obtain ⟨nc, h1, h2, h3, -, -, -⟩ := gfpLoopCalls_run fuel s vacs [] []
  rw [h1]
  simp only [List.nil_append]
  exact ⟨h2, h3⟩

/-- C5: a run of `get_final_pto`'s loop that ends by the exhaustion signal
produces a trajectory that is exactly the list of ok results of the
`next_period` calls in order — one entry per successful call, none for the
final failed attempt, which is the last call and the only failed one — and
the final `pto` equals the last trajectory entry (the starting `pto` when
the trajectory is empty); `get_final_pto` then returns exactly that final
`pto` with that trajectory. -/
theorem trajectory_spec (fuel : Nat) (s s2 : PTOAccruement)
    (vacs vacs2 : List Vacation) (traj : List ℚ)
    (h : (gfpLoopCalls fuel s vacs [] []).1 = .done s2 vacs2 traj) :
    traj = ((gfpLoopCalls fuel s vacs [] []).2).filterMap (fun c => c.2.toOption)
    ∧ (∃ u, ((gfpLoopCalls fuel s vacs [] []).2).getLast?
          = some (u, .error .pastDate))
    ∧ (∀ c ∈ ((gfpLoopCalls fuel s vacs [] []).2).dropLast, ∃ u q, c = (u, .ok q))
    ∧ s2.pto = traj.getLastD s.pto
    ∧ (∀ vacs0, sortVacations vacs0 = vacs →
        s.get_final_pto vacs0 fuel = some (s2.pto, traj)) := by
  obtain ⟨nc, h1, -, -, h4, h5, h6⟩ := gfpLoopCalls_run fuel s vacs [] []
  rw [h] at h4 h5
  simp only [LoopOut.trajOf, LoopOut.stateOf, List.nil_append] at h4 h5
  obtain ⟨hlast, hinit⟩ := h6 s2 vacs2 traj h
  rw [h1]
  simp only [List.nil_append]
  refine ⟨h4, hlast, hinit, ?_, ?_⟩
  · rw [h4]
    exact h5
  · intro vacs0 hsort
    unfold PTOAccruement.get_final_pto
    rw [hsort, ← gfpLoopCalls_fst fuel s vacs [] [], h]

/-- Witness for C5: a concrete run with one successful period followed by
the exhaustion signal. -/
theorem trajectory_spec_witness :
    (gfpLoopCalls 2 ⟨[⟨5, 0, 3, 2⟩], 1, 4⟩ [] [] []).1
        = .done ⟨[⟨5, 0, 3, 2⟩], 3, 9⟩ [] [3]
    ∧ (([3] : List ℚ)
        = ((gfpLoopCalls 2 ⟨[⟨5, 0, 3, 2⟩], 1, 4⟩ [] [] []).2).filterMap
            (fun c => c.2.toOption)
      ∧ (∃ u, ((gfpLoopCalls 2 ⟨[⟨5, 0, 3, 2⟩], 1, 4⟩ [] [] []).2).getLast?
            = some (u, .error .pastDate))
      ∧ (∀ c ∈ ((gfpLoopCalls 2 ⟨[⟨5, 0, 3, 2⟩], 1, 4⟩ [] [] []).2).dropLast,
          ∃ u q, c = (u, .ok q))
      ∧ (⟨[⟨5, 0, 3, 2⟩], 3, 9⟩ : PTOAccruement).pto
          = ([3] : List ℚ).getLastD (⟨[⟨5, 0, 3, 2⟩], 1, 4⟩ : PTOAccruement).pto
      ∧ (∀ vacs0, sortVacations vacs0 = [] →
          (⟨[⟨5, 0, 3, 2⟩], 1, 4⟩ : PTOAccruement).get_final_pto vacs0 2
            = some ((⟨[⟨5, 0, 3, 2⟩], 3, 9⟩ : PTOAccruement).pto, [3]))) := by
  have hscan : ∀ t : ℤ, usedPtoScan t 0 ([] : List Vacation) 0 = (0, []) :=
    fun t => usedPtoScan_end t 0 [] 0 (by decide)
  have hdone : (gfpLoopCalls 2 ⟨[⟨5, 0, 3, 2⟩], 1, 4⟩ [] [] []).1
      = .done ⟨[⟨5, 0, 3, 2⟩], 3, 9⟩ [] [3] := by
    norm_num [gfpLoopCalls, hscan, PTOAccruement.next_period, nextPeriodAux,
      PayPeriod.add_pto]
  exact ⟨hdone, trajectory_spec 2 ⟨[⟨5, 0, 3, 2⟩], 1, 4⟩ ⟨[⟨5, 0, 3, 2⟩], 3, 9⟩
    [] [] [3] hdone⟩

/-- C10: `get_final_pto` never mutates the caller's vacation list: the sort
writes into a fresh list and the loop removes entries only from that copy,
so after the call the caller's reference holds the same elements in the
same order as before. -/
theorem get_final_pto_frame (fuel : Nat) (s : PTOAccruement)
    (heap : List (List Vacation)) (vacRef : Nat) (hv : vacRef < heap.length) :
    ((get_final_pto_heap fuel s heap vacRef).2).getD vacRef []
      = heap.getD vacRef [] := by
  unfold get_final_pto_heap
  simp only [List.getD_eq_getElem?_getD]
  rw [List.getElem?_set_ne (by omega)]
  rw [List.getElem?_append, if_pos hv]

/-- Witness for C10 at a concrete heap. -/
theorem get_final_pto_frame_witness :
    (0 : Nat) < 1
    ∧ ((get_final_pto_heap 1 ⟨[], 0, 0⟩ [[⟨1, 2, 0⟩]] 0).2).getD 0 []
        = [[(⟨1, 2, 0⟩ : Vacation)]].getD 0 [] :=
  ⟨by decide, get_final_pto_frame 1 ⟨[], 0, 0⟩ [[⟨1, 2, 0⟩]] 0 (by decide)⟩

/-- Witness for C8 at a concrete state with a nonnegative period length. -/
theorem next_period_today_evolution_witness :
    (∀ p ∈ ([⟨14, 0, 100, 5⟩] : List AccruementPeriod), 0 ≤ p.period_length)
    ∧ (⟨[⟨14, 0, 100, 5⟩], 0, 10⟩ : PTOAccruement).next_period 0
        = (.ok 5, ⟨[⟨14, 0, 100, 5⟩], 5, 24⟩)
    ∧ (10 : ℤ) ≤ (⟨[⟨14, 0, 100, 5⟩], 5, 24⟩ : PTOAccruement).today := by
  have h : (⟨[⟨14, 0, 100, 5⟩], 0, 10⟩ : PTOAccruement).next_period 0
      = (.ok 5, ⟨[⟨14, 0, 100, 5⟩], 5, 24⟩) := by
    norm_num [PTOAccruement.next_period, nextPeriodAux, PayPeriod.add_pto]
  exact ⟨by decide, h,
    (next_period_today_evolution ⟨[⟨14, 0, 100, 5⟩], 0, 10⟩ 0).2.2 (by decide) _ _ h⟩
